import Mathlib

/-!
Verification of the schema-check validation pipeline of the
proposals-reviewer-automation repository.

Source texts handled by the pipeline are modelled as `List Char`
(one byte per character); external collaborators (the HMAC primitive,
the JSON decoder, the GraphQL parser, the document-resolver call) are
passed in as explicit function or value parameters, exactly at the
points where the handler invokes them.
-/

namespace SchemaCheck

/-! ## Basic data model (src/src/eslint.ts) -/

/-- Severity level of a violation, as produced by the evaluators. -/
inductive Level where
  | ERROR
  | WARNING
deriving DecidableEq, Repr

/-- Status reported to the orchestrator callback. -/
inductive Status where
  | SUCCESS
  | FAILURE
deriving DecidableEq, Repr

/-- One subgraph reference of the payload: `{ hash, name }`. -/
structure Subgraph where
  hash : String
  name : String
deriving DecidableEq, Repr

/-- Fields `baseSchema` / `proposedSchema` of the payload:
`{ hash, subgraphs?: Array<{hash,name}> | null }`; a missing or null
list is `none`. -/
structure SchemaRef where
  hash : String
  subgraphs : Option (List Subgraph)
deriving DecidableEq, Repr

/-- The `checkStep` block of the payload. -/
structure CheckStep where
  taskId : String
  graphId : String
  graphVariant : String
  workflowId : String
deriving DecidableEq, Repr

/-- The `gitContext` block of the payload. -/
structure GitContext where
  branch : Option String
  commit : Option String
  committer : Option String
  message : Option String
  remoteUrl : Option String
deriving DecidableEq, Repr

/-- The decoded webhook payload (interface `Payload` in eslint.ts). -/
structure Payload where
  baseSchema : SchemaRef
  proposedSchema : SchemaRef
  checkStep : CheckStep
  gitContext : GitContext
deriving DecidableEq, Repr

/-- A coordinate `{ line, column, byteOffset }`; `byteOffset` is an
integer because the source computes it as a length minus one. -/
structure Coordinate where
  line : Nat
  column : Nat
  byteOffset : Int
deriving DecidableEq, Repr

/-- A source location `{ subgraphName, start, end }`. -/
structure SourceLocation where
  subgraphName : String
  start : Coordinate
  end_ : Coordinate
deriving DecidableEq, Repr

/-- A violation as built by the contact-directive evaluator; the
missing-directive violation carries no `sourceLocations` field, which
is modelled by `none`. -/
structure Violation where
  level : Level
  message : String
  rule : String
  sourceLocations : Option (List SourceLocation)
deriving DecidableEq, Repr

/-! ## Lowercase hex encoding (node `hmac.digest('hex')`) -/

/-- One lowercase hex digit for a nibble. -/
def hexDigit (n : Nat) : Char :=
  if n < 10 then Char.ofNat (48 + n) else Char.ofNat (87 + n)

/-- Lowercase hex encoding of a byte sequence, as produced by node's
`digest('hex')`. -/
def bytesToHexLower (bs : List Nat) : String :=
  String.mk (bs.flatMap fun b => [hexDigit (b / 16 % 16), hexDigit (b % 16)])

/-! ## Signature Verifier (eslint.ts `isAuthorized`, lines 122-131)

The HMAC-SHA256 primitive (`crypto.createHmac`) is an external library
function and is passed in as a parameter `hmac : String → String → List Nat`
mapping (secret, message) to the digest bytes. -/

/-- eslint.ts `isAuthorized`: compare the `x-apollo-signature` header
(`none` when absent) against `"sha256=" + hex(HMAC-SHA256(secret, payload))`. -/
def isAuthorized (hmac : String → String → List Nat)
    (secret payload : String) (header : Option String) : Bool :=
  header == some ("sha256=" ++ bytesToHexLower (hmac secret payload))

/-- eslint.ts line 135: an empty request body is replaced by the
two-character string holding an open and a close curly brace (the JS
expression appends the literal empty-object text) before any use. -/
def effectivePayload (reqBody : String) : String :=
  if reqBody == "" then "\x7b\x7d" else reqBody

/-! ## Subgraph Diff Engine (eslint.ts lines 143-148) -/

/-- eslint.ts `changedSubgraphs`: keep a proposed subgraph when the hash
of the first base subgraph with the same name (or `undefined` when there
is none, or the base list is null) differs from the proposed hash. -/
def changedSubgraphs (base proposed : SchemaRef) : List Subgraph :=
  (proposed.subgraphs.getD []).filter fun p =>
    ((base.subgraphs.bind fun bs =>
        bs.find? fun b => b.name == p.name).map Subgraph.hash) != some p.hash

/-- The diff semantics as the specification words it: keep a proposed
subgraph iff no base entry has both the same name and the same hash. -/
def changedSubgraphsClaim (base proposed : SchemaRef) : List Subgraph :=
  (proposed.subgraphs.getD []).filter fun p =>
    !((base.subgraphs.getD []).any fun b => b.name == p.name && b.hash == p.hash)

/-! ## Result aggregation (eslint.ts lines 263-267) -/

/-- The status computation of the callback input:
`FAILURE` iff some entry is null or has level `ERROR`. -/
def checkStatus (vrs : List (Option Violation)) : Status :=
  if vrs.any (fun v => match v with
      | none => true
      | some w => w.level == Level.ERROR) then
    Status.FAILURE
  else
    Status.SUCCESS

/-! ## Lint Ruleset mapping (src/src/index.ts lines 98-115) -/

/-- An eslint lint finding, as consumed by the mapping in index.ts:
`ruleId` may be null, `endLine`/`endColumn` may be absent. ESLint encodes
severity numerically; `2` is its highest tier ("error"). -/
structure LintMessage where
  ruleId : Option String
  severity : Nat
  message : String
  line : Nat
  column : Nat
  endLine : Option Nat
  endColumn : Option Nat
deriving DecidableEq, Repr

/-- A coordinate of the lint mapping: index.ts hardcodes `byteOffset: 0`
and copies the possibly-absent line/column values. -/
structure LintCoordinate where
  byteOffset : Nat
  line : Option Nat
  column : Option Nat
deriving DecidableEq, Repr

/-- The `sourceLocations` object built by index.ts (an object with
`start`/`end`, not an array). -/
structure LintSourceLocations where
  start : LintCoordinate
  end_ : LintCoordinate
deriving DecidableEq, Repr

/-- A violation as built by the index.ts mapping. -/
structure LintViolation where
  level : Level
  message : String
  rule : String
  sourceLocations : LintSourceLocations
deriving DecidableEq, Repr

/-- index.ts lines 98-115: map one lint finding to a violation. The
level is `ERROR` exactly when the rule id is
`@graphql-eslint/naming-convention`; the rule falls back to `"unknown"`. -/
def lintViolation (m : LintMessage) : LintViolation :=
  { level := if m.ruleId == some "@graphql-eslint/naming-convention"
             then Level.ERROR else Level.WARNING
  , message := m.message
  , rule := m.ruleId.getD "unknown"
  , sourceLocations :=
      { start := { byteOffset := 0, line := some m.line, column := some m.column }
      , end_ := { byteOffset := 0, line := m.endLine, column := m.endColumn } } }

/-- The level assignment as the specification words it: `ERROR` iff the
finding's severity is the linter's highest tier (2) or its rule id is in
a configurable override table. -/
def lintLevelClaim (overrides : List String) (m : LintMessage) : Level :=
  if m.severity == 2 ||
      (match m.ruleId with
       | some r => overrides.contains r
       | none => false) then
    Level.ERROR
  else
    Level.WARNING

/-! ## Source Location Mapper (eslint.ts lines 7-20)

JS strings are modelled as `List Char`; `code.split('\n')` is
`splitLines`, `Array.join('\n')` is `joinNl`, `slice(0, n)` is `take n`,
`slice(0, -1)` is `dropLast`. -/

/-- Split a character sequence at every newline, like JS
`code.split('\n')`; the result always has at least one (possibly empty)
line. -/
def splitLines : List Char → List (List Char)
  | [] => [[]]
  | c :: cs =>
    if c = '\n' then [] :: splitLines cs
    else
      match splitLines cs with
      | [] => [[c]]
      | l :: ls => (c :: l) :: ls

/-- Join lines with a newline separator, like JS `lines.join('\n')`. -/
def joinNl : List (List Char) → List Char
  | [] => []
  | [l] => l
  | l :: l' :: ls => l ++ '\n' :: joinNl (l' :: ls)

/-- eslint.ts `getSourceLocationCoordinate`: take the first `line` lines,
join all but the last in full plus the first `column` characters of the
last, and subtract one from the resulting length. -/
def getSourceLocationCoordinate (code : List Char) (line column : Nat) : Coordinate :=
  let lines := (splitLines code).take line
  let lastLine := lines.getLast?.getD []
  { line := line
  , column := column
  , byteOffset := ((joinNl (lines.dropLast ++ [lastLine.take column])).length : Int) - 1 }

/-- Specification-side count of the characters strictly preceding the
1-based position (line, column): all of lines `1..line-1` with their
newline separators, plus `column - 1` characters of line `line`. -/
def charsBeforePos (code : List Char) (line column : Nat) : Nat :=
  (((splitLines code).take (line - 1)).map (fun l => l.length + 1)).sum + (column - 1)

/-- Specification-side text strictly preceding the 1-based position
(line, column): lines `1..line-1` re-joined, followed by the first
`column - 1` characters of line `line`. -/
def textUpTo (code : List Char) (line column : Nat) : List Char :=
  joinNl ((splitLines code).take (line - 1) ++
    [((splitLines code).getD (line - 1) []).take (column - 1)])

/-! ## Contact-directive Rule Evaluator (eslint.ts lines 180-251)

The GraphQL parser is external; the evaluator is embedded over the
parsed document it consumes: a list of definitions, each with a `kind`
string and an optional directive list. Directive arguments are the
`{ field: argu.name.value, value: argu.value.value }` pairs the code
extracts. -/

/-- Token span of a directive (`loc.startToken` / `loc.endToken`). -/
structure DirectiveLoc where
  startLine : Nat
  startColumn : Nat
  endLine : Nat
  endColumn : Nat
deriving DecidableEq, Repr

/-- One directive argument, projected to the name/value strings used by
the evaluator. -/
structure Argument where
  name : String
  value : String
deriving DecidableEq, Repr

/-- A parsed directive node: name, optional argument list, token span. -/
structure Directive where
  name : String
  arguments : Option (List Argument)
  loc : DirectiveLoc
deriving DecidableEq, Repr

/-- A parsed top-level definition: its `kind` string and optional
directive list. -/
structure Definition where
  kind : String
  directives : Option (List Directive)
deriving DecidableEq, Repr

/-- The rule string carried by every contact-directive violation. -/
def contactRule : String :=
  "Must contain a properly formatted @contact directive for each subgraph"

/-- The violation returned when no contact directive is found
(eslint.ts lines 201-207); it has no `sourceLocations` field. -/
def missingContactViolation : Violation :=
  { level := Level.ERROR
  , message := "Subgraphs must contain a contact directive"
  , rule := contactRule
  , sourceLocations := none }

/-- eslint.ts lines 193-199: the first schema definition or extension,
then the first directive on it named `contact`, through the optional
chains `schemaDefinition?.directives?.find(...)`. -/
def contactLookup (doc : List Definition) : Option Directive :=
  ((doc.find? fun d =>
      d.kind == "SchemaDefinition" || d.kind == "SchemaExtension").bind
    Definition.directives).bind
    (List.find? fun dir => dir.name == "contact")

/-- eslint.ts `getSourceLocationInformation` (lines 22-44): the span of
the directive's start and end token positions within `code`. -/
def getSourceLocationInformation (subgraphName : String) (code : List Char)
    (dir : Directive) : SourceLocation :=
  { subgraphName := subgraphName
  , start := getSourceLocationCoordinate code dir.loc.startLine dir.loc.startColumn
  , end_ := getSourceLocationCoordinate code dir.loc.endLine dir.loc.endColumn }

/-- The per-subgraph body of the evaluator (eslint.ts lines 191-249),
given the parsed document of the subgraph's source text. -/
def evalSubgraph (subgraphName : String) (code : List Char)
    (doc : List Definition) : List Violation :=
  match contactLookup doc with
  | none => [missingContactViolation]
  | some dir =>
    let contactSchemaFields :=
      dir.arguments.map (List.map fun a => (a.name, a.value))
    let allFieldsHaveValues :=
      (contactSchemaFields.map
        (List.all · fun fv => !(fv.1 == "") && !(fv.2 == ""))).getD false
    let contactSchemaFieldNames := contactSchemaFields.map (List.map Prod.fst)
    let hasAllRequiredFields :=
      ["name", "url", "description"].all fun fieldName =>
        (contactSchemaFieldNames.map (List.contains · fieldName)).getD false
    let sourceLoc := getSourceLocationInformation subgraphName code dir
    (if !hasAllRequiredFields then
      [{ level := Level.ERROR
       , message := "Contact directive must have a name, url, and description"
       , rule := contactRule
       , sourceLocations := some [sourceLoc] }]
     else []) ++
    (if !allFieldsHaveValues then
      [{ level := Level.ERROR
       , message := "Contact directive values are not all present"
       , rule := contactRule
       , sourceLocations := some [sourceLoc] }]
     else [])

/-! ## The handler pipeline (eslint.ts `customLint`, lines 133-284) -/

/-- One resolved document of the docs query: `{ hash, source }`. -/
structure Doc where
  hash : String
  source : List Char
deriving DecidableEq, Repr

/-- The `graph` object of the docs query response: its `docs` list is
nullable and may contain null entries. -/
structure Graph where
  docs : Option (List (Option Doc))
deriving DecidableEq, Repr

/-- eslint.ts lines 182-184:
`docsResult.data.graph?.docs?.find(doc => doc?.hash === subgraph.hash)?.source`. -/
def lookupSource (g : Option Graph) (h : String) : Option (List Char) :=
  ((g.bind Graph.docs).bind fun ds =>
    ds.find? fun d => (d.map Doc.hash) == some h).bind
    (Option.map Doc.source)

/-- The per-subgraph step of the map (eslint.ts lines 181-250): a missing
source yields the null placeholder (`some none`); a parse exception
(`gqlParse` returning `none`) propagates (`none`); otherwise the
evaluator runs. -/
def evalChangedSubgraph (gqlParse : List Char → Option (List Definition))
    (g : Option Graph) (s : Subgraph) : Option (Option (List Violation)) :=
  match lookupSource g s.hash with
  | none => some none
  | some code =>
    match gqlParse code with
    | none => none
    | some doc => some (some (evalSubgraph s.name code doc))

/-- Effectful map over a list: `none` as soon as one element maps to
`none` (a thrown exception inside `Array.map`). -/
def optionMapList (f : α → Option β) : List α → Option (List β)
  | [] => some []
  | a :: as' =>
    match f a, optionMapList f as' with
    | some b, some bs => some (b :: bs)
    | _, _ => none

/-- eslint.ts line 251: `.flat()` — a null entry stays one null element,
a violation list contributes its elements. -/
def flattenResults (rs : List (Option (List Violation))) : List (Option Violation) :=
  (rs.map fun r =>
    match r with
    | none => [(none : Option Violation)]
    | some vs => vs.map some).flatten

/-- The input object of the orchestrator callback mutation. -/
structure CallbackInput where
  taskId : String
  workflowId : String
  status : Status
  violations : List (Option Violation)
deriving DecidableEq, Repr

/-- Outcome of one handler invocation: an uncaught exception, or an HTTP
response together with whether the document fetch was performed and the
callback input sent to the orchestrator (if any). -/
inductive HandlerOutcome where
  | thrown
  | response (status : Nat) (body : String) (didFetch : Bool)
      (callback : Option CallbackInput)
deriving DecidableEq, Repr

/-- eslint.ts `customLint`. External collaborators are parameters:
`hmac` the HMAC-SHA256 primitive, `jsonParse` the JSON decoder (`none`
when `JSON.parse` throws), `gqlParse` the GraphQL parser (`none` when
`parse` throws), and `fetch` the docs-query outcome (`none` when the
query rejects, so that the `.catch` yields a null graph). -/
def customLint (hmac : String → String → List Nat)
    (jsonParse : String → Option Payload)
    (gqlParse : List Char → Option (List Definition))
    (fetch : Option (Option Graph))
    (secret : String) (header : Option String) (reqBody : String) : HandlerOutcome :=
  let payload := effectivePayload reqBody
  if isAuthorized hmac secret payload header then
    match jsonParse payload with
    | none => HandlerOutcome.thrown
    | some event =>
      let changed := changedSubgraphs event.baseSchema event.proposedSchema
      let g : Option Graph :=
        match fetch with
        | none => none
        | some g => g
      match optionMapList (evalChangedSubgraph gqlParse g) changed with
      | none => HandlerOutcome.thrown
      | some results =>
        let flat := flattenResults results
        HandlerOutcome.response 200 "OK" true
          (some { taskId := event.checkStep.taskId
                , workflowId := event.checkStep.workflowId
                , status := checkStatus flat
                , violations := flat })
  else
    HandlerOutcome.response 403 "Signature is invalid" false none

/-! ## Concrete fixtures used to instantiate the theorems -/

/-- A fixed stand-in for the external HMAC-SHA256 primitive. -/
def hmacFix : String → String → List Nat := fun _ _ => [0, 255]

/-- A JSON decoder fixture that always throws. -/
def jsonThrows : String → Option Payload := fun _ => none

/-- A GraphQL parser fixture that always throws. -/
def gqlThrows : List Char → Option (List Definition) := fun _ => none

/-- A GraphQL parser fixture that yields an empty document. -/
def gqlEmptyDoc : List Char → Option (List Definition) := fun _ => some []

/-- A payload with exactly one (new, hence changed) proposed subgraph. -/
def eventOneSubgraph : Payload :=
  { baseSchema := { hash := "bh", subgraphs := some [] }
  , proposedSchema := { hash := "ph", subgraphs := some [{ hash := "h1", name := "s1" }] }
  , checkStep := { taskId := "t", graphId := "g", graphVariant := "v", workflowId := "w" }
  , gitContext := { branch := none, commit := none, committer := none
                  , message := none, remoteUrl := none } }

/-- A JSON decoder fixture returning `eventOneSubgraph`. -/
def jsonOneSubgraph : String → Option Payload := fun _ => some eventOneSubgraph

/-! ## Claim theorems -/

/-- Claim C1: the signature verifier accepts exactly the header equal to
"sha256=" followed by the lowercase hex encoding of
HMAC-SHA256(secret, body); the correctly-signed header is always
accepted; and on rejection the handler answers 403 with body
"Signature is invalid", performs no document fetch and issues no
orchestrator callback. -/
theorem claim_C1_signature_verifier
    (hmac : String → String → List Nat)
    (jsonParse : String → Option Payload)
    (gqlParse : List Char → Option (List Definition))
    (fetch : Option (Option Graph))
    (secret payload reqBody : String) (header : Option String) :
    (isAuthorized hmac secret payload header = true ↔
      header = some ("sha256=" ++ bytesToHexLower (hmac secret payload)))
    ∧ isAuthorized hmac secret payload
        (some ("sha256=" ++ bytesToHexLower (hmac secret payload))) = true
    ∧ (isAuthorized hmac secret (effectivePayload reqBody) header = false →
        customLint hmac jsonParse gqlParse fetch secret header reqBody =
          HandlerOutcome.response 403 "Signature is invalid" false none) := by
  refine ⟨?_, ?_, ?_⟩
  · simp [isAuthorized]
  · simp [isAuthorized]
  · intro h
    simp only [customLint, h, Bool.false_eq_true, if_false]

/-- Witness for claim C1 at a concrete unsigned request. -/
theorem claim_C1_signature_verifier_witness :
    isAuthorized hmacFix "sec" (effectivePayload "body") (some "nope") = false
    ∧ customLint hmacFix jsonThrows gqlThrows none "sec" (some "nope") "body" =
        HandlerOutcome.response 403 "Signature is invalid" false none :=
  ⟨by decide,
   (claim_C1_signature_verifier hmacFix jsonThrows gqlThrows none
      "sec" "p" "body" (some "nope")).2.2 (by decide)⟩

/-- For a base list with pairwise distinct names, matching the first
entry with a given name and comparing its hash is the same as asking
whether some entry has both that name and that hash. -/
theorem find_hash_eq_any (p : Subgraph) :
    ∀ bs : List Subgraph, (bs.map Subgraph.name).Nodup →
    (((bs.find? fun b => b.name == p.name).map Subgraph.hash) == some p.hash)
      = bs.any fun b => b.name == p.name && b.hash == p.hash
  | [], _ => by simp
  | b :: bs, h => by
    rw [List.map_cons, List.nodup_cons] at h
    obtain ⟨hb, hbs⟩ := h
    by_cases hn : (b.name == p.name) = true
    · have hfind : List.find? (fun b' => b'.name == p.name) (b :: bs) = some b := by
        simp [List.find?, hn]
      have hnone : (bs.any fun b' => b'.name == p.name && b'.hash == p.hash) = false := by
        rw [List.any_eq_false]
        intro b' hb'
        have hne : ¬ b'.name = p.name := by
          intro hcontra
          apply hb
          rw [eq_of_beq hn, ← hcontra]
          exact List.mem_map_of_mem _ hb'
        simp [hne]
      cases hhash : b.hash == p.hash <;>
        simp [hfind, List.any_cons, hn, hnone, hhash]
    · have hfind : List.find? (fun b' => b'.name == p.name) (b :: bs)
          = List.find? (fun b' => b'.name == p.name) bs := by
        simp [List.find?, hn]
      rw [hfind, find_hash_eq_any p bs hbs]
      simp [List.any_cons, hn]

/-- Counterexample for claim C2: when base holds two entries with the
same name, the code compares only against the first one, so a proposed
subgraph whose (name, hash) pair does occur in base is still reported
as changed; the claim's semantics would exclude it. -/
theorem claim_C2_counterexample :
    changedSubgraphs ⟨"H", some [⟨"h1", "a"⟩, ⟨"h2", "a"⟩]⟩ ⟨"K", some [⟨"h2", "a"⟩]⟩
        = [⟨"h2", "a"⟩]
    ∧ changedSubgraphsClaim ⟨"H", some [⟨"h1", "a"⟩, ⟨"h2", "a"⟩]⟩ ⟨"K", some [⟨"h2", "a"⟩]⟩
        = []
    ∧ changedSubgraphs ⟨"H", some [⟨"h1", "a"⟩, ⟨"h2", "a"⟩]⟩ ⟨"K", some [⟨"h2", "a"⟩]⟩
        ≠ changedSubgraphsClaim ⟨"H", some [⟨"h1", "a"⟩, ⟨"h2", "a"⟩]⟩
            ⟨"K", some [⟨"h2", "a"⟩]⟩ := by
  refine ⟨by decide, by decide, by decide⟩

/-- Claim C2 (amended): provided base's subgraph names are pairwise
distinct, `changedSubgraphs` returns exactly the proposed entries for
which no base entry has both the same name and the same hash; the
output is always (even without that proviso) a sublist of the proposed
list, in the proposed order, and an absent proposed list yields the
empty result. -/
theorem claim_C2_diff_engine (base proposed : SchemaRef)
    (h : ((base.subgraphs.getD []).map Subgraph.name).Nodup) :
    changedSubgraphs base proposed = changedSubgraphsClaim base proposed
    ∧ (changedSubgraphs base proposed).Sublist (proposed.subgraphs.getD [])
    ∧ (proposed.subgraphs = none → changedSubgraphs base proposed = []) := by
  refine ⟨?_, ?_, ?_⟩
  · unfold changedSubgraphs changedSubgraphsClaim
    apply List.filter_congr
    intro p _
    cases hbs : base.subgraphs with
    | none => simp [hbs]
    | some bs =>
      rw [hbs] at h
      simp only [hbs, Option.getD_some] at h ⊢
      have heq := find_hash_eq_any p bs h
      simp only [Option.some_bind, bne]
      rw [heq]
  · exact List.filter_sublist _
  · intro hnone
    simp [changedSubgraphs, hnone]

/-- Base list for the claim C2 witness, with distinct names. -/
def baseTwoSubgraphs : SchemaRef := ⟨"B", some [⟨"h1", "a"⟩, ⟨"h2", "b"⟩]⟩

/-- Proposed list for the claim C2 witness. -/
def proposedThreeSubgraphs : SchemaRef :=
  ⟨"P", some [⟨"h1", "a"⟩, ⟨"h3", "b"⟩, ⟨"h4", "c"⟩]⟩

/-- Witness for claim C2 at the specification's own example. -/
theorem claim_C2_diff_engine_witness :
    ((baseTwoSubgraphs.subgraphs.getD []).map Subgraph.name).Nodup
    ∧ (changedSubgraphs baseTwoSubgraphs proposedThreeSubgraphs
          = changedSubgraphsClaim baseTwoSubgraphs proposedThreeSubgraphs
       ∧ (changedSubgraphs baseTwoSubgraphs proposedThreeSubgraphs).Sublist
           (proposedThreeSubgraphs.subgraphs.getD [])
       ∧ (proposedThreeSubgraphs.subgraphs = none →
            changedSubgraphs baseTwoSubgraphs proposedThreeSubgraphs = [])) :=
  ⟨by decide, claim_C2_diff_engine baseTwoSubgraphs proposedThreeSubgraphs (by decide)⟩

/-- Claim C5: over a list of (non-null) violations the aggregation step
reports FAILURE exactly when some violation has level ERROR, and
SUCCESS whenever all violations are warnings. -/
theorem claim_C5_aggregation (vs : List Violation) :
    (checkStatus (vs.map some) = Status.FAILURE ↔ ∃ v ∈ vs, v.level = Level.ERROR)
    ∧ ((∀ v ∈ vs, v.level = Level.WARNING) →
        checkStatus (vs.map some) = Status.SUCCESS) := by
  have hmap : ((vs.map some).any fun v => match v with
      | none => true
      | some w => w.level == Level.ERROR) = vs.any fun w => w.level == Level.ERROR := by
    induction vs with
    | nil => rfl
    | cons v t ih => simp [List.any_cons, ih]
  constructor
  · unfold checkStatus
    rw [hmap]
    by_cases hany : (vs.any fun w => w.level == Level.ERROR) = true
    · simp only [hany, if_true, true_iff]
      rcases List.any_eq_true.mp hany with ⟨v, hv, hlev⟩
      exact ⟨v, hv, by simpa using hlev⟩
    · rw [Bool.not_eq_true] at hany
      simp only [hany, Bool.false_eq_true, if_false]
      constructor
      · intro hcontra
        exact absurd hcontra (by decide)
      · rintro ⟨v, hv, hlev⟩
        have := List.any_eq_false.mp hany v hv
        simp [hlev] at this
  · intro hall
    unfold checkStatus
    rw [hmap]
    have : (vs.any fun w => w.level == Level.ERROR) = false := by
      rw [List.any_eq_false]
      intro v hv
      simp [hall v hv]
    simp [this]

/-- A warning-level violation used by the claim C5 witness. -/
def warningViolation : Violation :=
  ⟨Level.WARNING, "some message", "some rule", none⟩

/-- Witness for claim C5: a single warning aggregates to SUCCESS. -/
theorem claim_C5_aggregation_witness :
    (∀ v ∈ [warningViolation], v.level = Level.WARNING)
    ∧ checkStatus ([warningViolation].map some) = Status.SUCCESS :=
  ⟨by decide, (claim_C5_aggregation [warningViolation]).2 (by decide)⟩

/-- A severity-2 (highest tier) lint finding whose rule is not the
naming-convention rule. -/
def lintMsgSeverityTwo : LintMessage :=
  ⟨some "@graphql-eslint/require-description", 2, "msg", 1, 1, none, none⟩

/-- Counterexample for claim C9: the code maps a finding of the
linter's highest severity tier to WARNING because its rule id is not
the naming-convention rule, while the claim's severity-based rule (with
the naming-convention override) demands ERROR. -/
theorem claim_C9_counterexample :
    lintMsgSeverityTwo.severity = 2
    ∧ (lintViolation lintMsgSeverityTwo).level = Level.WARNING
    ∧ lintLevelClaim ["@graphql-eslint/naming-convention"] lintMsgSeverityTwo
        = Level.ERROR
    ∧ (lintViolation lintMsgSeverityTwo).level ≠
        lintLevelClaim ["@graphql-eslint/naming-convention"] lintMsgSeverityTwo := by
  refine ⟨rfl, by decide, by decide, by decide⟩

/-- Claim C9 (amended): the mapped level is ERROR exactly when the
finding's rule id is the naming-convention rule (the finding's severity
is ignored), and the mapped rule is the finding's rule id, or the
literal string "unknown" when it is absent. -/
theorem claim_C9_lint_mapping (m : LintMessage) :
    ((lintViolation m).level = Level.ERROR ↔
      m.ruleId = some "@graphql-eslint/naming-convention")
    ∧ (lintViolation m).rule = m.ruleId.getD "unknown" := by
  constructor
  · by_cases h : m.ruleId = some "@graphql-eslint/naming-convention"
    · simp [lintViolation, h]
    · simp [lintViolation, h]
  · rfl

/-- Claim C3: when no schema definition or extension of the parsed
document carries a directive named contact (in particular when there is
none at all), the evaluator emits exactly the single violation with
level ERROR, message "Subgraphs must contain a contact directive" and
no source location. -/
theorem claim_C3_missing_contact (subgraphName : String) (code : List Char)
    (doc : List Definition)
    (h : ∀ d ∈ doc, (d.kind = "SchemaDefinition" ∨ d.kind = "SchemaExtension") →
         ∀ ds, d.directives = some ds → ∀ dir ∈ ds, dir.name ≠ "contact") :
    evalSubgraph subgraphName code doc = [missingContactViolation]
    ∧ missingContactViolation.level = Level.ERROR
    ∧ missingContactViolation.message = "Subgraphs must contain a contact directive"
    ∧ missingContactViolation.sourceLocations = none := by
  have hlook : contactLookup doc = none := by
    unfold contactLookup
    cases hfind : doc.find?
        (fun d => d.kind == "SchemaDefinition" || d.kind == "SchemaExtension") with
    | none => rfl
    | some d =>
      have hd : d ∈ doc := List.mem_of_find?_eq_some hfind
      have hp := List.find?_some hfind
      have hkind : d.kind = "SchemaDefinition" ∨ d.kind = "SchemaExtension" := by
        simpa using hp
      simp only [Option.some_bind]
      cases hds : d.directives with
      | none => rfl
      | some ds =>
        simp only [Option.some_bind]
        cases hdir : ds.find? (fun dir => dir.name == "contact") with
        | none => rfl
        | some dir =>
          have hq := List.find?_some hdir
          have hqq : dir.name = "contact" := by simpa using hq
          exact absurd hqq (h d hd hkind ds hds dir (List.mem_of_find?_eq_some hdir))
  refine ⟨?_, rfl, rfl, rfl⟩
  unfold evalSubgraph
  rw [hlook]

/-- A document with no schema definition or extension, for the claim C3
witness. -/
def docNoSchemaBlock : List Definition := [⟨"ObjectTypeDefinition", none⟩]

/-- Witness for claim C3 at a concrete document lacking a schema block. -/
theorem claim_C3_missing_contact_witness :
    (∀ d ∈ docNoSchemaBlock,
        (d.kind = "SchemaDefinition" ∨ d.kind = "SchemaExtension") →
        ∀ ds, d.directives = some ds → ∀ dir ∈ ds, dir.name ≠ "contact")
    ∧ (evalSubgraph "reviews" ['t'] docNoSchemaBlock = [missingContactViolation]
       ∧ missingContactViolation.level = Level.ERROR
       ∧ missingContactViolation.message = "Subgraphs must contain a contact directive"
       ∧ missingContactViolation.sourceLocations = none) :=
  have hvac : ∀ d ∈ docNoSchemaBlock,
      (d.kind = "SchemaDefinition" ∨ d.kind = "SchemaExtension") →
      ∀ ds, d.directives = some ds → ∀ dir ∈ ds, dir.name ≠ "contact" := by
    intro d hd hk
    rw [docNoSchemaBlock, List.mem_singleton] at hd
    subst hd
    exact absurd hk (by decide)
  ⟨hvac, claim_C3_missing_contact "reviews" ['t'] docNoSchemaBlock hvac⟩

/-- Bridge between a boolean guard negated in the code and its
propositional counterpart in the specification wording. -/
theorem bool_if_list (b : Bool) (P : Prop) [Decidable P] (h : (b = true) ↔ P)
    (x : List Violation) :
    (if !b then x else []) = (if P then [] else x) := by
  cases b
  · have hnp : ¬P := fun hp => by simpa using h.mpr hp
    simp [hnp]
  · have hp : P := h.mp rfl
    simp [hp]

/-- Membership in a conditionally-emitted singleton violation list. -/
theorem mem_if_singleton {P : Prop} [Decidable P] {x v : Violation}
    (hv : v ∈ (if P then ([] : List Violation) else [x])) : v = x := by
  split at hv
  · simp at hv
  · simpa using hv

/-- Claim C4: with a contact directive present (with argument list
`args`), the evaluator emits the missing-required-fields violation
exactly when the field-name set is not a superset of name, url and
description, and the missing-values violation exactly when some
argument has an empty field name or an empty value; every emitted
violation has level ERROR, the common rule string, and the single
source location spanning the directive's start and end token
positions. -/
theorem claim_C4_contact_fields (subgraphName : String) (code : List Char)
    (doc : List Definition) (dir : Directive) (args : List Argument)
    (hdir : contactLookup doc = some dir) (hargs : dir.arguments = some args) :
    evalSubgraph subgraphName code doc =
      (if ∀ r ∈ ["name", "url", "description"], r ∈ args.map (fun a => a.name) then
        ([] : List Violation)
       else [⟨Level.ERROR, "Contact directive must have a name, url, and description",
              contactRule, some [getSourceLocationInformation subgraphName code dir]⟩])
      ++ (if ∀ a ∈ args, a.name ≠ "" ∧ a.value ≠ "" then ([] : List Violation)
          else [⟨Level.ERROR, "Contact directive values are not all present",
                 contactRule, some [getSourceLocationInformation subgraphName code dir]⟩])
    ∧ (("Contact directive values are not all present" ∈
          (evalSubgraph subgraphName code doc).map Violation.message)
         ↔ ∃ a ∈ args, a.name = "" ∨ a.value = "")
    ∧ (("Contact directive must have a name, url, and description" ∈
          (evalSubgraph subgraphName code doc).map Violation.message)
         ↔ ¬ ∀ r ∈ ["name", "url", "description"], r ∈ args.map (fun a => a.name))
    ∧ (∀ v ∈ evalSubgraph subgraphName code doc,
        v.level = Level.ERROR ∧ v.rule = contactRule ∧
        v.sourceLocations = some [getSourceLocationInformation subgraphName code dir]) := by
  have hB1 : (["name", "url", "description"].all fun fieldName =>
      ((args.map fun a => (a.name, a.value)).map Prod.fst).contains fieldName) = true
      ↔ ∀ r ∈ ["name", "url", "description"], r ∈ args.map (fun a => a.name) := by
    simp [List.all_eq_true, List.map_map, Function.comp]
  have hB2 : ((args.map fun a => (a.name, a.value)).all fun fv =>
      !(fv.1 == "") && !(fv.2 == "")) = true
      ↔ ∀ a ∈ args, a.name ≠ "" ∧ a.value ≠ "" := by
    simp [List.all_eq_true]
  have hP2iff : (¬ ∀ a ∈ args, a.name ≠ "" ∧ a.value ≠ "")
      ↔ ∃ a ∈ args, a.name = "" ∨ a.value = "" := by
    constructor
    · intro hno
      by_contra hc
      push_neg at hc
      exact hno hc
    · rintro ⟨a, ha, hor⟩ hall
      rcases hor with h | h
      · exact (hall a ha).1 h
      · exact (hall a ha).2 h
  have hne : ("Contact directive must have a name, url, and description" : String)
      ≠ "Contact directive values are not all present" := by decide
  have hchar : evalSubgraph subgraphName code doc =
      (if ∀ r ∈ ["name", "url", "description"], r ∈ args.map (fun a => a.name) then
        ([] : List Violation)
       else [⟨Level.ERROR, "Contact directive must have a name, url, and description",
              contactRule, some [getSourceLocationInformation subgraphName code dir]⟩])
      ++ (if ∀ a ∈ args, a.name ≠ "" ∧ a.value ≠ "" then ([] : List Violation)
          else [⟨Level.ERROR, "Contact directive values are not all present",
                 contactRule,
                 some [getSourceLocationInformation subgraphName code dir]⟩]) := by
    simp only [evalSubgraph, hdir, hargs, Option.map_some', Option.getD_some]
    rw [bool_if_list _ _ hB1, bool_if_list _ _ hB2]
  rw [← hP2iff]
  refine ⟨hchar, ?_, ?_, ?_⟩
  · rw [hchar]
    by_cases h1 : ∀ r ∈ ["name", "url", "description"], r ∈ args.map (fun a => a.name) <;>
      by_cases h2 : ∀ a ∈ args, a.name ≠ "" ∧ a.value ≠ ""
    · rw [if_pos h1, if_pos h2]
      simpa using h2
    · rw [if_pos h1, if_neg h2]
      simpa using h2
    · rw [if_neg h1, if_pos h2]
      simpa [Ne.symm hne] using h2
    · rw [if_neg h1, if_neg h2]
      simpa using h2
  · rw [hchar]
    by_cases h1 : ∀ r ∈ ["name", "url", "description"], r ∈ args.map (fun a => a.name) <;>
      by_cases h2 : ∀ a ∈ args, a.name ≠ "" ∧ a.value ≠ ""
    · rw [if_pos h1, if_pos h2]
      constructor
      · intro hmem
        simp at hmem
      · intro hno
        exact absurd h1 hno
    · rw [if_pos h1, if_neg h2]
      constructor
      · intro hmem
        simp [hne] at hmem
      · intro hno
        exact absurd h1 hno
    · rw [if_neg h1, if_pos h2]
      simpa using h1
    · rw [if_neg h1, if_neg h2]
      simpa using h1
  · rw [hchar]
    intro v hv
    rcases List.mem_append.mp hv with hv | hv <;>
      rw [mem_if_singleton hv] <;> exact ⟨rfl, rfl, rfl⟩

/-- The directive of the claim C4 witness:
contact(name: "Team", url: "", description: "x"). -/
def dirTeamEmptyUrl : Directive :=
  ⟨"contact", some [⟨"name", "Team"⟩, ⟨"url", ""⟩, ⟨"description", "x"⟩], ⟨1, 9, 1, 60⟩⟩

/-- A document whose schema definition carries `dirTeamEmptyUrl`. -/
def docTeamEmptyUrl : List Definition := [⟨"SchemaDefinition", some [dirTeamEmptyUrl]⟩]

/-- Source text fixture for the claim C4 witness. -/
def codeTeamEmptyUrl : List Char :=
  "schema @contact(name: \"Team\", url: \"\", description: \"x\") \x7b query: Query \x7d".toList

/-- Witness for claim C4 at the specification's own example: the url
value is empty, so exactly the missing-values violation is emitted. -/
theorem claim_C4_contact_fields_witness :
    (contactLookup docTeamEmptyUrl = some dirTeamEmptyUrl
     ∧ dirTeamEmptyUrl.arguments
         = some [⟨"name", "Team"⟩, ⟨"url", ""⟩, ⟨"description", "x"⟩])
    ∧ evalSubgraph "reviews" codeTeamEmptyUrl docTeamEmptyUrl =
        (if ∀ r ∈ ["name", "url", "description"],
            r ∈ [Argument.mk "name" "Team", ⟨"url", ""⟩,
                 ⟨"description", "x"⟩].map (fun a => a.name) then
          ([] : List Violation)
         else [⟨Level.ERROR, "Contact directive must have a name, url, and description",
                contactRule,
                some [getSourceLocationInformation "reviews" codeTeamEmptyUrl
                        dirTeamEmptyUrl]⟩])
        ++ (if ∀ a ∈ [Argument.mk "name" "Team", ⟨"url", ""⟩, ⟨"description", "x"⟩],
              a.name ≠ "" ∧ a.value ≠ "" then ([] : List Violation)
            else [⟨Level.ERROR, "Contact directive values are not all present",
                   contactRule,
                   some [getSourceLocationInformation "reviews" codeTeamEmptyUrl
                           dirTeamEmptyUrl]⟩])
    ∧ (evalSubgraph "reviews" codeTeamEmptyUrl docTeamEmptyUrl).length = 1 :=
  ⟨⟨rfl, rfl⟩,
   (claim_C4_contact_fields "reviews" codeTeamEmptyUrl docTeamEmptyUrl dirTeamEmptyUrl
      [⟨"name", "Team"⟩, ⟨"url", ""⟩, ⟨"description", "x"⟩] rfl rfl).1,
   by decide⟩

/-! ## Helper lemmas about the effectful map of the subgraph loop -/

/-- When every element maps successfully, `optionMapList` returns the
plain map. -/
theorem optionMapList_all_some {α β : Type} (f : α → Option β) (g : α → β) :
    ∀ l : List α, (∀ a ∈ l, f a = some (g a)) → optionMapList f l = some (l.map g)
  | [], _ => rfl
  | a :: l, h => by
    have ha := h a (List.mem_cons_self a l)
    have ht := optionMapList_all_some f g l fun b hb => h b (List.mem_cons_of_mem a hb)
    simp [optionMapList, ha, ht]

/-- One failing element makes the whole `optionMapList` fail. -/
theorem optionMapList_none {α β : Type} (f : α → Option β) :
    ∀ l : List α, ∀ a ∈ l, f a = none → optionMapList f l = none
  | a :: l, b, hb, hfb => by
    rcases List.mem_cons.mp hb with hb | hb
    · subst hb
      simp [optionMapList, hfb]
    · have := optionMapList_none f l b hb hfb
      cases hfa : f a <;> simp [optionMapList, hfa, this]

/-- When every element maps successfully, `optionMapList` succeeds and
the image of each element is in the result. -/
theorem optionMapList_isSome {α β : Type} (f : α → Option β) :
    ∀ l : List α, (∀ a ∈ l, (f a).isSome) →
    ∃ rs, optionMapList f l = some rs ∧ ∀ a ∈ l, ∀ b, f a = some b → b ∈ rs
  | [], _ => ⟨[], rfl, by simp⟩
  | a :: l, h => by
    obtain ⟨ba, hba⟩ := Option.isSome_iff_exists.mp (h a (List.mem_cons_self a l))
    obtain ⟨rs, hrs, hmem⟩ :=
      optionMapList_isSome f l fun b hb => h b (List.mem_cons_of_mem a hb)
    refine ⟨ba :: rs, by simp [optionMapList, hba, hrs], ?_⟩
    intro b hb c hc
    rcases List.mem_cons.mp hb with hb | hb
    · subst hb
      rw [hba] at hc
      injection hc with h
      rw [← h]
      exact List.mem_cons_self ba rs
    · exact List.mem_cons_of_mem ba (hmem b hb c hc)

/-- A changed-subgraph list whose every evaluation is skipped flattens
to one null placeholder per subgraph. -/
theorem flattenResults_map_none {α : Type} :
    ∀ l : List α,
    flattenResults (l.map fun _ => none) = l.map fun _ => (none : Option Violation)
  | [] => rfl
  | a :: l => by
    simp only [List.map_cons, flattenResults, List.flatten_cons]
    have := flattenResults_map_none l
    simp only [flattenResults] at this
    rw [this]
    rfl

/-- Aggregating only null placeholders yields SUCCESS exactly for the
empty list and FAILURE otherwise. -/
theorem checkStatus_map_none {α : Type} [DecidableEq α] :
    ∀ l : List α,
    checkStatus (l.map fun _ => none) =
      if l = [] then Status.SUCCESS else Status.FAILURE
  | [] => rfl
  | a :: l => by
    simp [checkStatus]

/-- Claim C7 (amended): when the document-resolver call fails, the
handler still completes: every changed subgraph's evaluation is skipped
(each contributes one null placeholder), the callback is issued, and
its status is SUCCESS only when no subgraph changed — with at least one
changed subgraph the null placeholders force FAILURE. -/
theorem claim_C7_resolver_failure (hmac : String → String → List Nat)
    (jsonParse : String → Option Payload)
    (gqlParse : List Char → Option (List Definition))
    (secret reqBody : String) (header : Option String) (event : Payload)
    (hauth : isAuthorized hmac secret (effectivePayload reqBody) header = true)
    (hjson : jsonParse (effectivePayload reqBody) = some event) :
    customLint hmac jsonParse gqlParse none secret header reqBody =
      HandlerOutcome.response 200 "OK" true
        (some { taskId := event.checkStep.taskId
              , workflowId := event.checkStep.workflowId
              , status :=
                  if changedSubgraphs event.baseSchema event.proposedSchema = []
                  then Status.SUCCESS else Status.FAILURE
              , violations :=
                  (changedSubgraphs event.baseSchema event.proposedSchema).map
                    fun _ => none }) := by
  have hmapped := optionMapList_all_some (evalChangedSubgraph gqlParse none)
    (fun _ => (none : Option (List Violation)))
    (changedSubgraphs event.baseSchema event.proposedSchema)
    (fun s _ => rfl)
  simp only [customLint, hauth, if_true, hjson, hmapped,
    flattenResults_map_none, checkStatus_map_none]

/-- Counterexample for claim C7: with one changed subgraph and a failed
resolver call, the callback carries status FAILURE and a one-element
null-placeholder violations list, not SUCCESS with an empty list. -/
theorem claim_C7_counterexample :
    customLint hmacFix jsonOneSubgraph gqlEmptyDoc none "sec"
        (some "sha256=00ff") "body" =
      HandlerOutcome.response 200 "OK" true
        (some ⟨"t", "w", Status.FAILURE, [none]⟩)
    ∧ Status.FAILURE ≠ Status.SUCCESS
    ∧ ([(none : Option Violation)] : List (Option Violation)) ≠ [] := by
  refine ⟨by decide, by decide, by decide⟩

/-- Witness for claim C7 at a concrete event with one changed subgraph. -/
theorem claim_C7_resolver_failure_witness :
    isAuthorized hmacFix "sec" (effectivePayload "body") (some "sha256=00ff") = true
    ∧ jsonOneSubgraph (effectivePayload "body") = some eventOneSubgraph
    ∧ customLint hmacFix jsonOneSubgraph gqlEmptyDoc none "sec"
        (some "sha256=00ff") "body" =
      HandlerOutcome.response 200 "OK" true
        (some { taskId := eventOneSubgraph.checkStep.taskId
              , workflowId := eventOneSubgraph.checkStep.workflowId
              , status :=
                  if changedSubgraphs eventOneSubgraph.baseSchema
                      eventOneSubgraph.proposedSchema = []
                  then Status.SUCCESS else Status.FAILURE
              , violations :=
                  (changedSubgraphs eventOneSubgraph.baseSchema
                      eventOneSubgraph.proposedSchema).map fun _ => none }) :=
  ⟨by decide, rfl,
   claim_C7_resolver_failure hmacFix jsonOneSubgraph gqlEmptyDoc "sec" "body"
     (some "sha256=00ff") eventOneSubgraph (by decide) rfl⟩

/-- Claim C8 (amended): when parsing the source of one changed subgraph
throws, the exception propagates out of the subgraph loop: the handler
throws, so no other subgraph's result is reported and no orchestrator
callback is issued. -/
theorem claim_C8_evaluation_failure (hmac : String → String → List Nat)
    (jsonParse : String → Option Payload)
    (gqlParse : List Char → Option (List Definition))
    (g : Option Graph)
    (secret reqBody : String) (header : Option String) (event : Payload)
    (hauth : isAuthorized hmac secret (effectivePayload reqBody) header = true)
    (hjson : jsonParse (effectivePayload reqBody) = some event)
    (s : Subgraph)
    (hs : s ∈ changedSubgraphs event.baseSchema event.proposedSchema)
    (code : List Char) (hcode : lookupSource g s.hash = some code)
    (hparse : gqlParse code = none) :
    customLint hmac jsonParse gqlParse (some g) secret header reqBody =
      HandlerOutcome.thrown := by
  have hnone : evalChangedSubgraph gqlParse g s = none := by
    simp [evalChangedSubgraph, hcode, hparse]
  have hmap := optionMapList_none (evalChangedSubgraph gqlParse g)
    (changedSubgraphs event.baseSchema event.proposedSchema) s hs hnone
  simp only [customLint, hauth, if_true, hjson, hmap]

/-- A resolver response holding the source of hash h1. -/
def graphDocH1 : Graph := ⟨some [some ⟨"h1", ['t']⟩]⟩

/-- Counterexample for claim C8: the subgraph's source is present but
fails to parse; no callback is issued — the handler throws. -/
theorem claim_C8_counterexample :
    changedSubgraphs eventOneSubgraph.baseSchema eventOneSubgraph.proposedSchema
        = [⟨"h1", "s1"⟩]
    ∧ lookupSource (some graphDocH1) "h1" = some ['t']
    ∧ customLint hmacFix jsonOneSubgraph gqlThrows (some (some graphDocH1)) "sec"
        (some "sha256=00ff") "body" = HandlerOutcome.thrown := by
  refine ⟨by decide, by decide, by decide⟩

/-- Witness for claim C8 at the same concrete inputs, through the
general theorem. -/
theorem claim_C8_evaluation_failure_witness :
    (⟨"h1", "s1"⟩ : Subgraph) ∈
        changedSubgraphs eventOneSubgraph.baseSchema eventOneSubgraph.proposedSchema
    ∧ lookupSource (some graphDocH1) (Subgraph.hash ⟨"h1", "s1"⟩) = some ['t']
    ∧ gqlThrows ['t'] = none
    ∧ customLint hmacFix jsonOneSubgraph gqlThrows (some (some graphDocH1)) "sec"
        (some "sha256=00ff") "body" = HandlerOutcome.thrown :=
  ⟨by decide, by decide, rfl,
   claim_C8_evaluation_failure hmacFix jsonOneSubgraph gqlThrows (some graphDocH1)
     "sec" "body" (some "sha256=00ff") eventOneSubgraph (by decide) rfl
     ⟨"h1", "s1"⟩ (by decide) ['t'] (by decide) rfl⟩

/-- Claim C10: a changed subgraph whose source is absent from the
resolver response contributes a null placeholder to the violations list
sent to the orchestrator, and any such placeholder forces the reported
status to FAILURE (no ERROR-level violation is needed); the callback is
still issued, provided no other subgraph's parse throws. -/
theorem claim_C10_null_placeholder (hmac : String → String → List Nat)
    (jsonParse : String → Option Payload)
    (gqlParse : List Char → Option (List Definition))
    (g : Option Graph)
    (secret reqBody : String) (header : Option String) (event : Payload)
    (hauth : isAuthorized hmac secret (effectivePayload reqBody) header = true)
    (hjson : jsonParse (effectivePayload reqBody) = some event)
    (s : Subgraph)
    (hs : s ∈ changedSubgraphs event.baseSchema event.proposedSchema)
    (hmiss : lookupSource g s.hash = none)
    (hok : ∀ t ∈ changedSubgraphs event.baseSchema event.proposedSchema,
        ∀ c, lookupSource g t.hash = some c → (gqlParse c).isSome) :
    ∃ cb, customLint hmac jsonParse gqlParse (some g) secret header reqBody =
        HandlerOutcome.response 200 "OK" true (some cb)
      ∧ (none : Option Violation) ∈ cb.violations
      ∧ cb.status = Status.FAILURE := by
  have hall : ∀ t ∈ changedSubgraphs event.baseSchema event.proposedSchema,
      (evalChangedSubgraph gqlParse g t).isSome := by
    intro t ht
    cases hl : lookupSource g t.hash with
    | none => simp [evalChangedSubgraph, hl]
    | some c =>
      have hsome := hok t ht c hl
      cases hp : gqlParse c with
      | none =>
        rw [hp] at hsome
        exact absurd hsome (by simp)
      | some d => simp [evalChangedSubgraph, hl, hp]
  obtain ⟨rs, hrs, hmem⟩ := optionMapList_isSome (evalChangedSubgraph gqlParse g)
    (changedSubgraphs event.baseSchema event.proposedSchema) hall
  have hsnull : evalChangedSubgraph gqlParse g s = some none := by
    simp [evalChangedSubgraph, hmiss]
  have hnullmem : (none : Option (List Violation)) ∈ rs := hmem s hs none hsnull
  have hflat : (none : Option Violation) ∈ flattenResults rs := by
    refine List.mem_flatten.mpr ⟨[none], ?_, List.mem_singleton_self none⟩
    exact List.mem_map.mpr ⟨none, hnullmem, rfl⟩
  have hstatus : checkStatus (flattenResults rs) = Status.FAILURE := by
    have hany : ((flattenResults rs).any fun v => match v with
        | none => true
        | some w => w.level == Level.ERROR) = true :=
      List.any_eq_true.mpr ⟨none, hflat, rfl⟩
    simp [checkStatus, hany]
  refine ⟨{ taskId := event.checkStep.taskId
          , workflowId := event.checkStep.workflowId
          , status := checkStatus (flattenResults rs)
          , violations := flattenResults rs }, ?_, hflat, hstatus⟩
  simp only [customLint, hauth, if_true, hjson, hrs]

/-- A resolver response holding only an unrelated document. -/
def graphOtherDoc : Graph := ⟨some [some ⟨"other", ['t']⟩]⟩

/-- Witness for claim C10: the only changed subgraph's hash h1 is absent
from the resolver response. -/
theorem claim_C10_null_placeholder_witness :
    (⟨"h1", "s1"⟩ : Subgraph) ∈
        changedSubgraphs eventOneSubgraph.baseSchema eventOneSubgraph.proposedSchema
    ∧ lookupSource (some graphOtherDoc) (Subgraph.hash ⟨"h1", "s1"⟩) = none
    ∧ ∃ cb, customLint hmacFix jsonOneSubgraph gqlEmptyDoc (some (some graphOtherDoc))
          "sec" (some "sha256=00ff") "body" =
        HandlerOutcome.response 200 "OK" true (some cb)
      ∧ (none : Option Violation) ∈ cb.violations
      ∧ cb.status = Status.FAILURE :=
  ⟨by decide, by decide,
   claim_C10_null_placeholder hmacFix jsonOneSubgraph gqlEmptyDoc (some graphOtherDoc)
     "sec" "body" (some "sha256=00ff") eventOneSubgraph (by decide) rfl
     ⟨"h1", "s1"⟩ (by decide) (by decide)
     (by
       intro t ht c hc
       have hch : changedSubgraphs eventOneSubgraph.baseSchema
           eventOneSubgraph.proposedSchema = [⟨"h1", "s1"⟩] := by decide
       rw [hch, List.mem_singleton] at ht
       subst ht
       rw [(by decide : lookupSource (some graphOtherDoc)
             (Subgraph.hash ⟨"h1", "s1"⟩) = none)] at hc
       exact absurd hc (by simp))⟩

/-! ## Properties of the Source Location Mapper -/

/-- Splitting always yields at least one (possibly empty) line. -/
theorem splitLines_ne_nil (cs : List Char) : splitLines cs ≠ [] := by
  cases cs with
  | nil => simp [splitLines]
  | cons c cs =>
    simp only [splitLines]
    by_cases h : c = '\n'
    · simp [h]
    · simp only [h, if_false]
      cases hsp : splitLines cs with
      | nil => simp
      | cons l ls => simp

/-- Unfolding `joinNl` on a cons with a nonempty tail. -/
theorem joinNl_cons (l : List Char) (ls : List (List Char)) (h : ls ≠ []) :
    joinNl (l :: ls) = l ++ '\n' :: joinNl ls := by
  cases ls with
  | nil => exact absurd rfl h
  | cons l' ls' => rfl

/-- Pushing a head character through `joinNl` of a nonempty line list. -/
theorem joinNl_cons_head (c : Char) (l : List Char) (ls : List (List Char)) :
    joinNl ((c :: l) :: ls) = c :: joinNl (l :: ls) := by
  cases ls with
  | nil => rfl
  | cons l' ls' => rfl

/-- Joining undoes splitting: re-joining the split lines with
newlines restores the original text. -/
theorem joinNl_splitLines : ∀ cs : List Char, joinNl (splitLines cs) = cs
  | [] => rfl
  | c :: cs => by
    by_cases h : c = '\n'
    · subst h
      have hsplit : splitLines ('\n' :: cs) = [] :: splitLines cs := by
        simp [splitLines]
      rw [hsplit, joinNl_cons _ _ (splitLines_ne_nil cs), joinNl_splitLines cs]
      rfl
    · simp only [splitLines, if_neg h]
      cases hsp : splitLines cs with
      | nil => exact absurd hsp (splitLines_ne_nil cs)
      | cons l ls =>
        rw [joinNl_cons_head]
        have ih := joinNl_splitLines cs
        rw [hsp] at ih
        rw [ih]

/-- Length of `joinNl` over a line list ending in a final segment. -/
theorem joinNl_concat_length : ∀ (A : List (List Char)) (z : List Char),
    (joinNl (A ++ [z])).length = ((A.map fun l => l.length + 1).sum) + z.length
  | [], z => by simp [joinNl]
  | l :: A, z => by
    rw [List.cons_append, joinNl_cons _ _ (by simp)]
    simp only [List.length_append, List.length_cons, joinNl_concat_length A z,
      List.map_cons, List.sum_cons]
    omega

/-- Taking past a full segment and its separator of an appended list. -/
theorem take_append_cons {α : Type} (a : List α) (c : α) (b : List α) (m : Nat) :
    (a ++ c :: b).take (a.length + 1 + m) = a ++ c :: b.take m := by
  induction a with
  | nil =>
    rw [List.nil_append]
    have h : ([] : List α).length + 1 + m = m + 1 := by simp [Nat.add_comm]
    rw [h, List.take_succ_cons]
    rfl
  | cons x a ih =>
    have h : (x :: a).length + 1 + m = (a.length + 1 + m) + 1 := by
      simp only [List.length_cons]
      omega
    rw [List.cons_append, h, List.take_succ_cons, ih]
    rfl

/-- Taking, from the re-joined full text, exactly the first `n` lines
plus `k` characters of line `n+1` (0-based `n`) yields the join of that
line prefix. -/
theorem joinNl_take_concat : ∀ (n : Nat) (L : List (List Char)) (k : Nat),
    n < L.length → k ≤ (L.getD n []).length →
    (joinNl L).take ((((L.take n).map fun l => l.length + 1).sum) + k)
      = joinNl (L.take n ++ [(L.getD n []).take k])
  | 0, [], k => by
    intro hn _
    simp at hn
  | 0, x :: L', k => by
    intro _ hk
    have hk' : k ≤ x.length := by simpa using hk
    simp only [List.take_zero, List.map_nil, List.sum_nil, Nat.zero_add,
      List.nil_append, List.getD_cons_zero]
    cases L' with
    | nil => rfl
    | cons y L'' =>
      rw [joinNl_cons _ _ (by simp), List.take_append_of_le_length hk']
      rfl
  | n + 1, [], k => by
    intro hn _
    simp at hn
  | n + 1, x :: L', k => by
    intro hn hk
    have hn' : n < L'.length := by simpa using hn
    have hk' : k ≤ (L'.getD n []).length := by simpa using hk
    have ih := joinNl_take_concat n L' k hn' hk'
    obtain ⟨y, L'', rfl⟩ : ∃ y L'', L' = y :: L'' := by
      cases L' with
      | nil => simp at hn'
      | cons y L'' => exact ⟨y, L'', rfl⟩
    simp only [List.take_succ_cons, List.map_cons, List.sum_cons,
      List.getD_cons_succ, List.cons_append]
    rw [joinNl_cons x
      (List.take n (y :: L'') ++ [List.take k ((y :: L'').getD n [])]) (by simp)]
    rw [joinNl_cons x (y :: L'') (by simp)]
    rw [Nat.add_assoc (x.length + 1)
      ((List.map (fun l => l.length + 1) (List.take n (y :: L''))).sum) k]
    rw [take_append_cons, ih]

/-- Claim C6: for a 1-based position (line, column) that addresses a
character of the text, the computed byteOffset equals the number of
characters strictly preceding that position (`charsBeforePos`), it is
non-negative, slicing the text there reproduces exactly the text up to
the position, and that text's length is `charsBeforePos`. -/
theorem claim_C6_source_location (code : List Char) (line column : Nat)
    (hl1 : 1 ≤ line) (hl2 : line ≤ (splitLines code).length)
    (hc1 : 1 ≤ column)
    (hc2 : column ≤ ((splitLines code).getD (line - 1) []).length) :
    (getSourceLocationCoordinate code line column).byteOffset
        = (charsBeforePos code line column : Int)
    ∧ 0 ≤ (getSourceLocationCoordinate code line column).byteOffset
    ∧ code.take (charsBeforePos code line column) = textUpTo code line column
    ∧ (textUpTo code line column).length = charsBeforePos code line column := by
  obtain ⟨n, rfl⟩ : ∃ n, line = n + 1 := ⟨line - 1, by omega⟩
  have hn : n < (splitLines code).length := by omega
  have hx : column ≤ ((splitLines code).getD n []).length := by
    simpa using hc2
  have hgetD : (splitLines code).getD n [] = (splitLines code)[n] :=
    List.getD_eq_getElem (splitLines code) [] hn
  have htake : (splitLines code).take (n + 1)
      = (splitLines code).take n ++ [(splitLines code)[n]] :=
    (List.take_concat_get' (splitLines code) n hn).symm
  have hdrop : ((splitLines code).take (n + 1)).dropLast = (splitLines code).take n := by
    rw [htake, List.dropLast_concat]
  have hlast : ((splitLines code).take (n + 1)).getLast?.getD [] = (splitLines code)[n] := by
    rw [htake, List.getLast?_concat]
    rfl
  have hxlen : ((splitLines code)[n].take column).length = column := by
    rw [List.length_take]
    exact Nat.min_eq_left (by rw [← hgetD]; exact hx)
  have hoff : (getSourceLocationCoordinate code (n + 1) column).byteOffset
      = (((((splitLines code).take n).map fun l => l.length + 1).sum + column : Nat) : Int)
        - 1 := by
    simp only [getSourceLocationCoordinate, hdrop, hlast]
    rw [joinNl_concat_length, hxlen]
  have hchars : charsBeforePos code (n + 1) column
      = (((splitLines code).take n).map fun l => l.length + 1).sum + (column - 1) := by
    simp [charsBeforePos]
  have htext : textUpTo code (n + 1) column
      = joinNl ((splitLines code).take n ++ [((splitLines code).getD n []).take (column - 1)]) := by
    simp [textUpTo]
  refine ⟨?_, ?_, ?_, ?_⟩
  · rw [hoff, hchars]
    omega
  · rw [hoff]
    omega
  · rw [hchars, htext]
    have := joinNl_take_concat n (splitLines code) (column - 1) hn (by omega)
    rw [joinNl_splitLines] at this
    exact this
  · rw [htext, hchars, hgetD, joinNl_concat_length, List.length_take]
    have : column - 1 ≤ (splitLines code)[n].length := by
      rw [← hgetD]
      omega
    rw [Nat.min_eq_left this]

/-- Source text fixture for the claim C6 witness. -/
def codeTwoLines : List Char := ['a', 'b', '\n', 'c', 'd']

/-- Witness for claim C6 at position (2, 2) of a two-line text. -/
theorem claim_C6_source_location_witness :
    (1 ≤ 2 ∧ 2 ≤ (splitLines codeTwoLines).length
      ∧ 2 ≤ ((splitLines codeTwoLines).getD (2 - 1) []).length)
    ∧ ((getSourceLocationCoordinate codeTwoLines 2 2).byteOffset
        = (charsBeforePos codeTwoLines 2 2 : Int)
      ∧ 0 ≤ (getSourceLocationCoordinate codeTwoLines 2 2).byteOffset
      ∧ codeTwoLines.take (charsBeforePos codeTwoLines 2 2) = textUpTo codeTwoLines 2 2
      ∧ (textUpTo codeTwoLines 2 2).length = charsBeforePos codeTwoLines 2 2) :=
  ⟨⟨by decide, by decide, by decide⟩,
   claim_C6_source_location codeTwoLines 2 2 (by decide) (by decide)
     (by decide) (by decide)⟩

end SchemaCheck
